import Mathlib

/-
  Verification of the AgentFlow orchestration library core.

  Shallow embedding conventions:
  * `SharedStore = Arc<Mutex<HashMap<String, Value>>>` is modelled as an
    association list `Store = List (String × Value)`; nodes mutate the shared
    map in place and hand back the same handle, so a node is a pure function
    `Store → Store` on the map value.
  * `serde_json::Value` is modelled by the inductive `Value`.
  * The possibly non-terminating `Flow::run` while-loop takes explicit fuel
    and returns `Option Store` (`none` = fuel exhausted).
  * A Rust panic (e.g. `Option::unwrap` on `None`) is modelled as `none` in
    an `Option`-valued result.
-/

set_option autoImplicit false

namespace AgentFlow

/-- Model of `serde_json::Value`. -/
inductive Value where
  | null : Value
  | bool : Bool → Value
  | num : Int → Value
  | str : String → Value
  | arr : List Value → Value
  | obj : List (String × Value) → Value

/-- `Value::as_str` : `Some` only on JSON strings. -/
def Value.asStr : Value → Option String
  | Value.str s => some s
  | _ => none

/-- Association-list lookup, modelling `HashMap::get`. -/
def alookup {α : Type} : List (String × α) → String → Option α
  | [], _ => none
  | (k, v) :: rest, key => if k = key then some v else alookup rest key

/-- Association-list insert, modelling `HashMap::insert` (replaces an
existing binding for the key, otherwise appends). -/
def ainsert {α : Type} : List (String × α) → String → α → List (String × α)
  | [], key, v => [(key, v)]
  | (k, w) :: rest, key, v =>
    if k = key then (key, v) :: rest else (k, w) :: ainsert rest key v

/-- Association-list removal, modelling `HashMap::remove`. -/
def aerase {α : Type} : List (String × α) → String → List (String × α)
  | [], _ => []
  | (k, w) :: rest, key => if k = key then rest else (k, w) :: aerase rest key

/-- Modelling `HashMap::entry(key).or_insert(v)`: insert only when absent. -/
def entryOrInsert {α : Type} (l : List (String × α)) (key : String) (v : α) :
    List (String × α) :=
  if (alookup l key).isSome then l else ainsert l key v

theorem alookup_ainsert_self {α : Type} (l : List (String × α)) (k : String) (v : α) :
    alookup (ainsert l k v) k = some v := by
  induction l with
  | nil => simp [ainsert, alookup]
  | cons hd tl ih =>
    obtain ⟨k0, v0⟩ := hd
    by_cases h : k0 = k
    · simp [ainsert, alookup, h]
    · simp [ainsert, alookup, h, ih]

theorem alookup_ainsert_ne {α : Type} (l : List (String × α)) (k k2 : String) (v : α)
    (h : k ≠ k2) : alookup (ainsert l k v) k2 = alookup l k2 := by
  induction l with
  | nil => simp [ainsert, alookup, h]
  | cons hd tl ih =>
    obtain ⟨k0, v0⟩ := hd
    by_cases h0 : k0 = k
    · subst h0
      simp [ainsert, alookup, h]
    · simp [ainsert, alookup, h0, ih]

theorem mem_of_alookup_eq_some {α : Type} (l : List (String × α)) (k : String) (v : α)
    (h : alookup l k = some v) : (k, v) ∈ l := by
  induction l with
  | nil => simp [alookup] at h
  | cons hd tl ih =>
    obtain ⟨k0, v0⟩ := hd
    by_cases h0 : k0 = k
    · subst h0
      simp [alookup] at h
      simp [h]
    · simp [alookup, h0] at h
      exact List.mem_cons_of_mem _ (ih h)

/-- The shared key/value store (the value inside the `Arc<Mutex<_>>`). -/
abbrev Store := List (String × Value)

/-- A simple node: mutates the shared store in place. -/
abbrev NodeFn := Store → Store

/-- The reserved routing key. -/
def actionKey : String := "action"

/-- Reading the action label, from `Flow::run`:
`store.get("action").and_then(as_str)` with default `"default"`. -/
def getActionLabel (st : Store) : String :=
  match (alookup st actionKey).bind Value.asStr with
  | some s => s
  | none => "default"

/-- Model of `Flow`: named nodes, labelled edges, optional start node. -/
structure Flow where
  nodes : List (String × NodeFn)
  edges : List (String × List (String × String))
  startNode : Option String

/-- `Flow::new`. -/
def Flow.new : Flow := ⟨[], [], none⟩

/-- `Flow::add_node`: records the name as start node when none is set yet,
registers the node, and resets the name's outgoing edge map to empty. -/
def Flow.addNode (f : Flow) (name : String) (node : NodeFn) : Flow :=
  { nodes := ainsert f.nodes name node
    edges := ainsert f.edges name []
    startNode :=
      match f.startNode with
      | none => some name
      | some s => some s }

/-- `Flow::add_edge`: `edges.entry(from).or_default().insert(action, to)`. -/
def Flow.addEdge (f : Flow) (src action dst : String) : Flow :=
  { f with
      edges :=
        ainsert f.edges src
          (ainsert (match alookup f.edges src with
                    | some m => m
                    | none => []) action dst) }

/-- `Flow::with_start`. -/
def Flow.withStart (name : String) (node : NodeFn) : Flow :=
  Flow.new.addNode name node

/-- `Flow::get_next_step`. -/
def Flow.getNextStep (f : Flow) (src action : String) : Option String :=
  (alookup f.edges src).bind (fun m => alookup m action)

/-- `Flow::get_node`. -/
def Flow.getNode (f : Flow) (name : String) : Option NodeFn :=
  alookup f.nodes name

/-- The while-loop of `Flow::run`, with fuel. Returns the store at loop exit
(before the final removal of the action key). -/
def Flow.runLoop (f : Flow) : Nat → String → Store → Option Store
  | 0, _, _ => none
  | fuel + 1, cur, st =>
    match alookup f.nodes cur with
    | none => some st
    | some node =>
      let st2 := node st
      match f.getNextStep cur (getActionLabel st2) with
      | some next => f.runLoop fuel next st2
      | none => some st2

/-- `Flow::run`: with no start node, return the store unchanged; otherwise
run the loop from the start node and strip the action key at the end. -/
def Flow.run (f : Flow) (st : Store) (fuel : Nat) : Option Store :=
  match f.startNode with
  | none => some st
  | some s => (f.runLoop fuel s st).map (fun st2 => aerase st2 actionKey)

/-- Transition system written from the specification text for claim C1:
execute the current vertex's node, read the action label (default
`"default"`), follow the edge when one exists, halt with the action key
removed when none exists.  On a vertex with no registered node the spec's
algorithm is undefined, modelled as `none`. -/
def Flow.specLoop (f : Flow) : Nat → String → Store → Option Store
  | 0, _, _ => none
  | fuel + 1, cur, st =>
    match alookup f.nodes cur with
    | none => none
    | some node =>
      let st2 := node st
      match f.getNextStep cur (getActionLabel st2) with
      | some next => f.specLoop fuel next st2
      | none => some (aerase st2 actionKey)

/-- Spec-side run for claim C1 (only defined when a start node is set). -/
def Flow.specRun (f : Flow) (st : Store) (fuel : Nat) : Option Store :=
  match f.startNode with
  | none => none
  | some s => f.specLoop fuel s st

/-- A flow is closed when its start node (if any) is registered and every
edge target is registered. -/
def Flow.closedB (f : Flow) : Bool :=
  (match f.startNode with
   | some s => (alookup f.nodes s).isSome
   | none => true)
  && f.edges.all (fun p => p.2.all (fun q => (alookup f.nodes q.2).isSome))

theorem closed_next (f : Flow) (hc : f.closedB = true) (c a n : String)
    (h : f.getNextStep c a = some n) : (alookup f.nodes n).isSome = true := by
  unfold Flow.getNextStep at h
  cases hm : alookup f.edges c with
  | none => simp [hm] at h
  | some m =>
    simp only [hm, Option.bind_some] at h
    have hmem : (c, m) ∈ f.edges := mem_of_alookup_eq_some _ _ _ hm
    have hmem2 : (a, n) ∈ m := mem_of_alookup_eq_some _ _ _ h
    unfold Flow.closedB at hc
    have hall := (Bool.and_eq_true _ _).mp hc |>.2
    rw [List.all_eq_true] at hall
    have := hall _ hmem
    simp only [List.all_eq_true] at this
    exact this _ hmem2

theorem runLoop_eq_specLoop (f : Flow) (hc : f.closedB = true) :
    ∀ (fuel : Nat) (cur : String) (st : Store),
      (alookup f.nodes cur).isSome = true →
      (f.runLoop fuel cur st).map (fun st2 => aerase st2 actionKey) =
        f.specLoop fuel cur st := by
  intro fuel
  induction fuel with
  | zero => intro cur st _; simp [Flow.runLoop, Flow.specLoop]
  | succ n ih =>
    intro cur st hcur
    obtain ⟨node, hnode⟩ := Option.isSome_iff_exists.mp hcur
    simp only [Flow.runLoop, Flow.specLoop, hnode]
    cases hstep : f.getNextStep cur (getActionLabel (node st)) with
    | none => simp
    | some next =>
      simp only []
      exact ih next (node st) (closed_next f hc _ _ _ hstep)

/-- Demo nodes and flow (the spec's A → B → C scenario) used as concrete
witness inputs. -/
def demoNodeA : NodeFn := fun st => ainsert st "visitedA" (Value.num 1)

/-- Second demo node. -/
def demoNodeB : NodeFn := fun st => ainsert st "visitedB" (Value.num 2)

/-- Third demo node. -/
def demoNodeC : NodeFn := fun st => ainsert st "visitedC" (Value.num 3)

/-- Demo flow with nodes A, B, C and default edges A → B → C. -/
def demoFlow : Flow :=
  ((((Flow.new.addNode "A" demoNodeA).addNode "B" demoNodeB).addNode
      "C" demoNodeC).addEdge "A" "default" "B").addEdge "B" "default" "C"

/-- C1: for every closed Flow with a configured start node and every shared
state, `Flow::run` coincides with the spec's transition system: it executes
the start node, then repeatedly reads the string under the reserved
`"action"` key (literal `"default"` when absent or not a string), moves
along the edge `(current, label)` when it exists, halts when none exists,
and on halt the `"action"` key has been removed from the returned state.
(`closedB` requires every vertex the flow can reach to carry a node, which
the claim's "executes the current vertex's node" step presupposes.) -/
theorem flow_run_matches_spec (f : Flow) (s : String) (st : Store) (fuel : Nat)
    (hc : f.closedB = true) (hs : f.startNode = some s) :
    f.run st fuel = f.specRun st fuel := by
  unfold Flow.run Flow.specRun
  rw [hs]
  apply runLoop_eq_specLoop f hc
  unfold Flow.closedB at hc
  have h1 := (Bool.and_eq_true _ _).mp hc |>.1
  rw [hs] at h1
  exact h1

/-- C1 witness: the A → B → C demo flow satisfies the hypotheses and the
conclusion at a concrete store and fuel. -/
theorem flow_run_matches_spec_witness :
    demoFlow.closedB = true ∧ demoFlow.startNode = some "A" ∧
      demoFlow.run [] 10 = demoFlow.specRun [] 10 :=
  ⟨by decide, by decide, flow_run_matches_spec demoFlow "A" [] 10 (by decide) (by decide)⟩

/-- C7: a Flow with no start node halts immediately and returns the state
unchanged — no key is added, modified or removed, and a pre-existing
`"action"` key is not stripped on this path. -/
theorem flow_run_no_start (f : Flow) (st : Store) (fuel : Nat)
    (h : f.startNode = none) : f.run st fuel = some st := by
  unfold Flow.run
  rw [h]

/-- C7 witness: a startless flow returns a store that still carries the
reserved action key. -/
theorem flow_run_no_start_witness :
    Flow.new.startNode = none ∧
      Flow.new.run [(actionKey, Value.str "go")] 5 =
        some [(actionKey, Value.str "go")] :=
  ⟨rfl, flow_run_no_start Flow.new [(actionKey, Value.str "go")] 5 rfl⟩

/-- C10: re-registering a name with `Flow::add_node` replaces the node and
resets that name's outgoing edge map to empty, discarding every edge
previously added from that name; the start-node designation is unchanged
(it is only ever set when it was still unset). -/
theorem addNode_reregister (f : Flow) (name : String) (node : NodeFn) (s : String)
    (_hreg : (alookup f.nodes name).isSome = true) (hs : f.startNode = some s) :
    (f.addNode name node).getNode name = some node ∧
      alookup (f.addNode name node).edges name = some [] ∧
      (∀ a, (f.addNode name node).getNextStep name a = none) ∧
      (f.addNode name node).startNode = some s := by
  refine ⟨?_, ?_, ?_, ?_⟩
  · unfold Flow.addNode Flow.getNode
    simp [alookup_ainsert_self]
  · unfold Flow.addNode
    simp [alookup_ainsert_self]
  · intro a
    unfold Flow.addNode Flow.getNextStep
    simp [alookup_ainsert_self, alookup]
  · unfold Flow.addNode
    simp [hs]

/-- C10 witness: re-registering "B" in the demo flow (which has an edge
B → C) discards that edge, replaces the node, and keeps start node "A". -/
theorem addNode_reregister_witness :
    (alookup demoFlow.nodes "B").isSome = true ∧ demoFlow.startNode = some "A" ∧
      ((demoFlow.addNode "B" demoNodeC).getNode "B" = some demoNodeC ∧
        alookup (demoFlow.addNode "B" demoNodeC).edges "B" = some [] ∧
        (∀ a, (demoFlow.addNode "B" demoNodeC).getNextStep "B" a = none) ∧
        (demoFlow.addNode "B" demoNodeC).startNode = some "A") :=
  ⟨by decide, by decide, addNode_reregister demoFlow "B" demoNodeC "A" (by decide) (by decide)⟩

/-
  `create_retry_node` (src/core/node.rs).  The execute function is modelled
  as indexed by the attempt number (the mock for a fallible external call
  whose outcome may differ between attempts); `anyhow::Error` is modelled as
  `String`.  The instrumentation fields (`execCalls`, `sleeps`, `postCalls`,
  `fallbackCalls`) count the corresponding operations of one call.
-/

/-- Execute phase: attempt number, shared store, prep result → outcome. -/
abbrev ExecFn := Nat → Store → Value → Except String Value

/-- State of the retry loop at exit: attempt/sleep counts, `exec_res` and
`last_err`. -/
structure RetryOutcome where
  execCalls : Nat
  sleeps : Nat
  result : Option Value
  lastErr : Option String

/-- The `for attempt in 0..max_retries` loop of `RetryNode::call`,
structurally recursive on the remaining attempts.  A sleep of `waitMillis`
is performed after a failed attempt only when another attempt follows and
`waitMillis > 0`. -/
def retryGo (e : Nat → Except String Value) (maxRetries waitMillis : Nat) :
    Nat → Nat → Option String → Nat → Nat → RetryOutcome
  | 0, _, le, ex, sl => ⟨ex, sl, none, le⟩
  | r + 1, a, le, ex, sl =>
    match e a with
    | Except.ok v => ⟨ex + 1, sl, some v, le⟩
    | Except.error err =>
      retryGo e maxRetries waitMillis r (a + 1) (some err) (ex + 1)
        (if a + 1 < maxRetries ∧ 0 < waitMillis then sl + 1 else sl)

/-- The retry loop entered with attempt 0, no recorded error, zero counts. -/
def retryLoop (e : Nat → Except String Value) (maxRetries waitMillis : Nat) :
    RetryOutcome :=
  retryGo e maxRetries waitMillis maxRetries 0 none 0 0

/-- The constant replacement value built in the fallback branch:
`json!({"error": "fallback triggered"})`. -/
def fallbackMarker : Value :=
  Value.obj [("error", Value.str "fallback triggered")]

/-- Rust `{:?}` rendering of the recorded `Option` error. -/
def debugOptErr : Option String → String
  | none => "None"
  | some e => "Some(" ++ e ++ ")"

/-- The error-marker value built when all attempts fail and no fallback is
provided: it carries the retry count and the last error. -/
def errorMarker (maxRetries : Nat) (lastErr : Option String) : Value :=
  Value.obj
    [("error",
      Value.str
        ("Node failed after " ++ toString maxRetries ++ " retries: " ++
          debugOptErr lastErr))]

/-- Observable outcome of one `RetryNode::call`.  `result = none` models the
panic of `last_err.unwrap()`; `postValue` is the value handed to the
post-process phase (when it ran). -/
structure RetryCallResult where
  result : Option Store
  execCalls : Nat
  sleeps : Nat
  postCalls : Nat
  fallbackCalls : Nat
  postValue : Option Value

/-- `RetryNode::call`: prep once, retry loop, then select `exec_val`
(success value, fallback-branch marker, or error marker) and run post once —
except that the fallback branch unwraps `last_err`, which panics when no
attempt ever recorded an error. -/
def retryNodeCall (prep : Store → Value) (exec : ExecFn)
    (post : Store → Value → Value → Store) (maxRetries waitMillis : Nat)
    (fallback : Option (Store → Value → String → Store)) (input : Store) :
    RetryCallResult :=
  let prepRes := prep input
  let o := retryLoop (fun a => exec a input prepRes) maxRetries waitMillis
  match o.result with
  | some v =>
    ⟨some (post input prepRes v), o.execCalls, o.sleeps, 1, 0, some v⟩
  | none =>
    match fallback with
    | some fb =>
      match o.lastErr with
      | some e =>
        let _discarded := fb input prepRes e
        ⟨some (post input prepRes fallbackMarker), o.execCalls, o.sleeps, 1, 1,
          some fallbackMarker⟩
      | none => ⟨none, o.execCalls, o.sleeps, 0, 0, none⟩
    | none =>
      let v := errorMarker maxRetries o.lastErr
      ⟨some (post input prepRes v), o.execCalls, o.sleeps, 1, 0, some v⟩

theorem retryGo_success (e : Nat → Except String Value) (M W : Nat) (v : Value) :
    ∀ (K r a : Nat) (le : Option String) (ex sl : Nat),
      K < r → a + r = M →
      (∀ j, j < K → ∃ err, e (a + j) = Except.error err) →
      e (a + K) = Except.ok v →
      (retryGo e M W r a le ex sl).execCalls = ex + K + 1 ∧
        (retryGo e M W r a le ex sl).sleeps = sl + (if 0 < W then K else 0) ∧
        (retryGo e M W r a le ex sl).result = some v := by
  intro K
  induction K with
  | zero =>
    intro r a le ex sl hKr _hM _hfail hok
    cases r with
    | zero => omega
    | succ r2 =>
      simp only [Nat.add_zero] at hok
      simp [retryGo, hok]
  | succ K2 ih =>
    intro r a le ex sl hKr hM hfail hok
    cases r with
    | zero => omega
    | succ r2 =>
      obtain ⟨err, herr⟩ := hfail 0 (Nat.succ_pos _)
      simp only [Nat.add_zero] at herr
      have hstep :
          retryGo e M W (r2 + 1) a le ex sl =
            retryGo e M W r2 (a + 1) (some err) (ex + 1)
              (if a + 1 < M ∧ 0 < W then sl + 1 else sl) := by
        simp [retryGo, herr]
      have hfail2 : ∀ j, j < K2 → ∃ err2, e (a + 1 + j) = Except.error err2 := by
        intro j hj
        have := hfail (j + 1) (by omega)
        simpa [Nat.add_assoc, Nat.add_comm 1 j] using this
      have hok2 : e (a + 1 + K2) = Except.ok v := by
        have : a + 1 + K2 = a + (K2 + 1) := by omega
        rw [this]
        exact hok
      have hrec := ih r2 (a + 1) (some err) (ex + 1)
        (if a + 1 < M ∧ 0 < W then sl + 1 else sl) (by omega) (by omega) hfail2 hok2
      rw [hstep]
      refine ⟨?_, ?_, hrec.2.2⟩
      · rw [hrec.1]; omega
      · rw [hrec.2.1]
        have haM : a + 1 < M := by omega
        by_cases hW : 0 < W
        · simp [haM, hW]; omega
        · simp [haM, hW]

theorem retryGo_allFail (e : Nat → Except String Value) (M W : Nat)
    (errf : Nat → String) :
    ∀ (r a : Nat) (le : Option String) (ex sl : Nat),
      a + r = M →
      (∀ j, j < r → e (a + j) = Except.error (errf (a + j))) →
      retryGo e M W r a le ex sl =
        ⟨ex + r, sl + (if 0 < W then r - 1 else 0), none,
          if r = 0 then le else some (errf (M - 1))⟩ := by
  intro r
  induction r with
  | zero =>
    intro a le ex sl _hM _hfail
    simp [retryGo]
  | succ r2 ih =>
    intro a le ex sl hM hfail
    have herr : e a = Except.error (errf a) := by
      have := hfail 0 (Nat.succ_pos _)
      simpa using this
    have hstep :
        retryGo e M W (r2 + 1) a le ex sl =
          retryGo e M W r2 (a + 1) (some (errf a)) (ex + 1)
            (if a + 1 < M ∧ 0 < W then sl + 1 else sl) := by
      simp [retryGo, herr]
    have hfail2 : ∀ j, j < r2 → e (a + 1 + j) = Except.error (errf (a + 1 + j)) := by
      intro j hj
      have := hfail (j + 1) (by omega)
      simpa [Nat.add_assoc, Nat.add_comm 1 j] using this
    rw [hstep, ih (a + 1) (some (errf a)) (ex + 1)
      (if a + 1 < M ∧ 0 < W then sl + 1 else sl) (by omega) hfail2]
    simp only [RetryOutcome.mk.injEq]
    refine ⟨by omega, ?_, trivial, ?_⟩
    · by_cases hW : 0 < W <;> by_cases hA : a + 1 < M <;> simp [hW, hA] <;> omega
    · by_cases hr : r2 = 0
      · subst hr
        have haEq : a = M - 1 := by omega
        simp [haEq]
      · simp [hr]

theorem retryLoop_success (e : Nat → Except String Value) (M W K : Nat) (v : Value)
    (hK : K < M) (hfail : ∀ j, j < K → ∃ err, e j = Except.error err)
    (hok : e K = Except.ok v) :
    (retryLoop e M W).execCalls = K + 1 ∧
      (retryLoop e M W).sleeps = (if 0 < W then K else 0) ∧
      (retryLoop e M W).result = some v := by
  have h := retryGo_success e M W v K M 0 none 0 0 hK (by omega)
    (fun j hj => by simpa using hfail j hj) (by simpa using hok)
  simpa [retryLoop] using h

theorem retryLoop_allFail (e : Nat → Except String Value) (M W : Nat)
    (errf : Nat → String) (hfail : ∀ j, j < M → e j = Except.error (errf j)) :
    retryLoop e M W =
      ⟨M, (if 0 < W then M - 1 else 0), none,
        if M = 0 then none else some (errf (M - 1))⟩ := by
  have h := retryGo_allFail e M W errf M 0 none 0 0 (by omega)
    (fun j hj => by simpa using hfail j hj)
  simpa [retryLoop] using h

theorem retryGo_lastErr_isSome (e : Nat → Except String Value) (M W : Nat) :
    ∀ (r a : Nat) (e0 : String) (ex sl : Nat),
      ((retryGo e M W r a (some e0) ex sl).lastErr).isSome = true := by
  intro r
  induction r with
  | zero => intro a e0 ex sl; simp [retryGo]
  | succ r2 ih =>
    intro a e0 ex sl
    cases h : e a with
    | ok v => simp [retryGo, h]
    | error err =>
      simp only [retryGo, h]
      exact ih (a + 1) err (ex + 1) _

theorem retryGo_none_lastErr (e : Nat → Except String Value) (M W : Nat)
    (r a ex sl : Nat) (hr : 1 ≤ r)
    (hres : (retryGo e M W r a none ex sl).result = none) :
    ((retryGo e M W r a none ex sl).lastErr).isSome = true := by
  cases r with
  | zero => omega
  | succ r2 =>
    cases h : e a with
    | ok v => simp [retryGo, h] at hres
    | error err =>
      simp only [retryGo, h]
      exact retryGo_lastErr_isSome e M W r2 (a + 1) err (ex + 1) _

/-- C9: with `max_retries = 0` and a fallback provided, `RetryNode::call`
panics (the loop runs zero attempts, no error is recorded, and the fallback
branch unwraps the absent error unconditionally); for every
`max_retries ≥ 1` the call cannot panic, because the fallback branch is
reached only after at least one failed attempt has recorded an error. -/
theorem retryNode_unwrap_panic :
    (∀ (prep : Store → Value) (exec : ExecFn)
        (post : Store → Value → Value → Store) (W : Nat)
        (fb : Store → Value → String → Store) (input : Store),
        (retryNodeCall prep exec post 0 W (some fb) input).result = none) ∧
      (∀ (prep : Store → Value) (exec : ExecFn)
          (post : Store → Value → Value → Store) (M W : Nat)
          (fallback : Option (Store → Value → String → Store)) (input : Store),
          1 ≤ M →
          ((retryNodeCall prep exec post M W fallback input).result).isSome = true) := by
  constructor
  · intro prep exec post W fb input
    rfl
  · intro prep exec post M W fallback input hM
    simp only [retryNodeCall]
    cases hres : (retryLoop (fun a => exec a input (prep input)) M W).result with
    | some v => simp
    | none =>
      have hle :=
        retryGo_none_lastErr (fun a => exec a input (prep input)) M W M 0 0 0 hM
          (by simpa [retryLoop] using hres)
      cases fallback with
      | none => simp
      | some fb =>
        have hle2 :
            ((retryLoop (fun a => exec a input (prep input)) M W).lastErr).isSome = true :=
          hle
        obtain ⟨err, herr⟩ := Option.isSome_iff_exists.mp hle2
        simp [herr]

/-- C9 witness: both parts of the panic claim at concrete inputs
(`max_retries = 0` with fallback panics; `max_retries = 2` does not). -/
theorem retryNode_unwrap_panic_witness :
    (retryNodeCall (fun _ => Value.null) (fun _ _ _ => Except.error "boom")
        (fun st _ _ => st) 0 7 (some (fun st _ _ => st)) []).result = none ∧
      (1 ≤ 2 ∧
        ((retryNodeCall (fun _ => Value.null) (fun _ _ _ => Except.error "boom")
            (fun st _ _ => st) 2 7 (some (fun st _ _ => st)) []).result).isSome = true) :=
  ⟨retryNode_unwrap_panic.1 (fun _ => Value.null) (fun _ _ _ => Except.error "boom")
      (fun st _ _ => st) 7 (fun st _ _ => st) [],
    by decide,
    retryNode_unwrap_panic.2 (fun _ => Value.null) (fun _ _ _ => Except.error "boom")
      (fun st _ _ => st) 2 7 (some (fun st _ _ => st)) [] (by decide)⟩

/-- C2: for a node built by `create_retry_node`, if execute fails the first
K attempts and then succeeds with `K < max_retries`, the call performs
exactly K+1 execute invocations and exactly K inter-attempt delays of
`wait_millis` (the sleep call is skipped entirely when `wait_millis = 0`,
so the delay count is K exactly when `wait_millis > 0`), and the final
output is the post-processed success value; if every attempt fails and
`max_retries = 3`, the call performs exactly 3 execute invocations and
exactly 2 inter-attempt delays, with no delay after the last attempt. -/
theorem retryNode_retry_counts (prep : Store → Value) (exec : ExecFn)
    (post : Store → Value → Value → Store) (M W K : Nat)
    (fallback : Option (Store → Value → String → Store)) (input : Store)
    (v : Value) (errf : Nat → String) :
    (K < M →
      (∀ j, j < K → exec j input (prep input) = Except.error (errf j)) →
      exec K input (prep input) = Except.ok v →
      (retryNodeCall prep exec post M W fallback input).execCalls = K + 1 ∧
        (retryNodeCall prep exec post M W fallback input).sleeps =
          (if 0 < W then K else 0) ∧
        (retryNodeCall prep exec post M W fallback input).result =
          some (post input (prep input) v)) ∧
    ((∀ j, j < 3 → exec j input (prep input) = Except.error (errf j)) →
      (retryNodeCall prep exec post 3 W fallback input).execCalls = 3 ∧
        (retryNodeCall prep exec post 3 W fallback input).sleeps =
          (if 0 < W then 2 else 0)) := by
  constructor
  · intro hK hfail hok
    have hs := retryLoop_success (fun a => exec a input (prep input)) M W K v hK
      (fun j hj => ⟨errf j, hfail j hj⟩) hok
    simp only [retryNodeCall, hs.2.2]
    exact ⟨hs.1, hs.2.1, by trivial⟩
  · intro hfail
    have ha := retryLoop_allFail (fun a => exec a input (prep input)) 3 W errf hfail
    simp only [retryNodeCall, ha]
    cases fallback with
    | none => exact ⟨rfl, rfl⟩
    | some fb => exact ⟨rfl, rfl⟩

/-- C2 witness: exec failing once then succeeding, with max_retries 3 and
wait 5: two invocations, one delay, post-processed success output; and the
all-fail part at max_retries 3: three invocations, two delays. -/
theorem retryNode_retry_counts_witness :
    (1 < 3 ∧
      (retryNodeCall (fun _ => Value.null)
          (fun a _ _ => if a = 0 then Except.error "e0" else Except.ok (Value.num 9))
          (fun st _ ev => ainsert st "out" ev) 3 5 none []).execCalls = 2 ∧
      (retryNodeCall (fun _ => Value.null)
          (fun a _ _ => if a = 0 then Except.error "e0" else Except.ok (Value.num 9))
          (fun st _ ev => ainsert st "out" ev) 3 5 none []).sleeps = 1 ∧
      (retryNodeCall (fun _ => Value.null)
          (fun a _ _ => if a = 0 then Except.error "e0" else Except.ok (Value.num 9))
          (fun st _ ev => ainsert st "out" ev) 3 5 none []).result =
        some [("out", Value.num 9)]) ∧
    ((retryNodeCall (fun _ => Value.null) (fun _ _ _ => Except.error "boom")
        (fun st _ ev => ainsert st "out" ev) 3 5 none []).execCalls = 3 ∧
      (retryNodeCall (fun _ => Value.null) (fun _ _ _ => Except.error "boom")
        (fun st _ ev => ainsert st "out" ev) 3 5 none []).sleeps = 2) := by
  constructor
  · refine ⟨by decide, ?_⟩
    have h :=
      (retryNode_retry_counts (fun _ => Value.null)
          (fun a _ _ => if a = 0 then Except.error "e0" else Except.ok (Value.num 9))
          (fun st _ ev => ainsert st "out" ev) 3 5 1 none [] (Value.num 9)
          (fun _ => "e0")).1
        (by decide) (by intro j hj; interval_cases j; rfl) rfl
    simpa using h
  · have h :=
      (retryNode_retry_counts (fun _ => Value.null) (fun _ _ _ => Except.error "boom")
          (fun st _ ev => ainsert st "out" ev) 3 5 0 none [] Value.null
          (fun _ => "boom")).2
        (by intro j hj; rfl)
    simpa using h

/-- C3 counterexample: the claim asserts post-process runs exactly once per
call regardless of the execute outcome, but with `max_retries = 0` and a
fallback provided the call panics inside the fallback branch before post
ever runs: post runs zero times. -/
theorem retryNode_post_skipped_on_panic :
    (retryNodeCall (fun _ => Value.null) (fun _ _ _ => Except.error "boom")
        (fun st _ _ => st) 0 0 (some (fun st _ _ => st)) []).postCalls = 0 ∧
      (retryNodeCall (fun _ => Value.null) (fun _ _ _ => Except.error "boom")
          (fun st _ _ => st) 0 0 (some (fun st _ _ => st)) []).result = none :=
  ⟨rfl, rfl⟩

/-- C3 (amended): except in the panicking configuration `max_retries = 0`
with a fallback provided, the post-process phase runs exactly once per call,
and the value it receives is: the successful execute result when some
attempt succeeds; the fixed replacement value synthesized by the fallback
branch (`{"error": "fallback triggered"}`) when all attempts fail and a
fallback is provided — the fallback function is invoked once but its
returned state is discarded, so the outcome is independent of it; and the
error-marker value carrying the retry count and the last error when all
attempts fail and no fallback is provided. -/
theorem retryNode_post_exactly_once (prep : Store → Value) (exec : ExecFn)
    (post : Store → Value → Value → Store) (M W K : Nat)
    (fb fb2 : Store → Value → String → Store) (input : Store) (v : Value)
    (errf : Nat → String) :
    (K < M →
      (∀ j, j < K → exec j input (prep input) = Except.error (errf j)) →
      exec K input (prep input) = Except.ok v →
      ∀ fallback,
        (retryNodeCall prep exec post M W fallback input).postCalls = 1 ∧
          (retryNodeCall prep exec post M W fallback input).postValue = some v) ∧
    (1 ≤ M →
      (∀ j, j < M → exec j input (prep input) = Except.error (errf j)) →
      ((retryNodeCall prep exec post M W (some fb) input).postCalls = 1 ∧
        (retryNodeCall prep exec post M W (some fb) input).postValue =
          some fallbackMarker ∧
        (retryNodeCall prep exec post M W (some fb) input).fallbackCalls = 1 ∧
        retryNodeCall prep exec post M W (some fb) input =
          retryNodeCall prep exec post M W (some fb2) input) ∧
      ((retryNodeCall prep exec post M W none input).postCalls = 1 ∧
        (retryNodeCall prep exec post M W none input).postValue =
          some (errorMarker M (some (errf (M - 1)))))) := by
  constructor
  · intro hK hfail hok fallback
    have hs := retryLoop_success (fun a => exec a input (prep input)) M W K v hK
      (fun j hj => ⟨errf j, hfail j hj⟩) hok
    simp only [retryNodeCall, hs.2.2]
    exact ⟨by trivial, by trivial⟩
  · intro hM hfail
    have hM0 : ¬ (M = 0) := by omega
    have ha := retryLoop_allFail (fun a => exec a input (prep input)) M W errf hfail
    constructor
    · simp only [retryNodeCall, ha, hM0, if_false]
      exact ⟨by trivial, by trivial, by trivial, by trivial⟩
    · simp only [retryNodeCall, ha, hM0, if_false]
      exact ⟨by trivial, by trivial⟩

/-- C3 witness: the amended statement at concrete inputs — a first-try
success (post gets the success value), the all-fail/fallback case (post gets
the fallback marker, independent of the two distinct fallbacks), and the
all-fail/no-fallback case (post gets the error marker). -/
theorem retryNode_post_exactly_once_witness :
    (0 < 2 ∧
      (retryNodeCall (fun _ => Value.null) (fun _ _ _ => Except.ok (Value.num 4))
          (fun st _ _ => st) 2 0 none []).postCalls = 1 ∧
      (retryNodeCall (fun _ => Value.null) (fun _ _ _ => Except.ok (Value.num 4))
          (fun st _ _ => st) 2 0 none []).postValue = some (Value.num 4)) ∧
    (1 ≤ 2 ∧
      (retryNodeCall (fun _ => Value.null) (fun _ _ _ => Except.error "boom")
          (fun st _ _ => st) 2 0 (some (fun st _ _ => st)) []).postValue =
        some fallbackMarker ∧
      retryNodeCall (fun _ => Value.null) (fun _ _ _ => Except.error "boom")
          (fun st _ _ => st) 2 0 (some (fun st _ _ => st)) [] =
        retryNodeCall (fun _ => Value.null) (fun _ _ _ => Except.error "boom")
          (fun st _ _ => st) 2 0 (some (fun _ _ _ => [("x", Value.null)])) [] ∧
      (retryNodeCall (fun _ => Value.null) (fun _ _ _ => Except.error "boom")
          (fun st _ _ => st) 2 0 none []).postValue =
        some (errorMarker 2 (some "boom"))) := by
  constructor
  · refine ⟨by decide, ?_⟩
    have h :=
      (retryNode_post_exactly_once (fun _ => Value.null)
          (fun _ _ _ => Except.ok (Value.num 4)) (fun st _ _ => st) 2 0 0
          (fun st _ _ => st) (fun st _ _ => st) [] (Value.num 4)
          (fun _ => "boom")).1
        (by decide) (by intro j hj; omega) rfl none
    exact h
  · refine ⟨by decide, ?_, ?_, ?_⟩ <;>
      have h :=
        (retryNode_post_exactly_once (fun _ => Value.null)
            (fun _ _ _ => Except.error "boom") (fun st _ _ => st) 2 0 0
            (fun st _ _ => st) (fun _ _ _ => [("x", Value.null)]) [] Value.null
            (fun _ => "boom")).2
          (by decide) (by intro j hj; rfl)
    · exact h.1.2.1
    · exact h.1.2.2.2
    · exact h.2.2

/-
  `Agent` (src/patterns/agent.rs).  `decide` wraps the input map in a fresh
  shared store, runs the retry loop (whose body unconditionally breaks after
  the first iteration), and unwraps the store back into a plain map (the
  unwrap is the identity in the value model).  The second component of the
  result counts node invocations.
-/

/-- Model of `Agent`. -/
structure Agent where
  node : NodeFn
  maxRetries : Nat
  waitMillis : Nat

/-- `Agent::new`: `max_retries = 1`, `wait_millis = 0`. -/
def Agent.new (node : NodeFn) : Agent := ⟨node, 1, 0⟩

/-- `Agent::with_retry`. -/
def Agent.withRetry (node : NodeFn) (maxRetries waitMillis : Nat) : Agent :=
  ⟨node, maxRetries, waitMillis⟩

/-- The `for _ in 0..max_retries` loop of `Agent::decide`: the body stores
the node result and breaks, so at most one iteration runs. -/
def Agent.decideLoop (node : NodeFn) (shared : Store) (resultStore : Option Store)
    (calls : Nat) : Nat → Option Store × Nat
  | 0 => (resultStore, calls)
  | _ + 1 => (some (node shared), calls + 1)

/-- `Agent::decide`: run the loop, then `result_store.unwrap_or(shared)` and
unwrap the store into a plain map. -/
def Agent.decide (a : Agent) (input : Store) : Store × Nat :=
  match Agent.decideLoop a.node input none 0 a.maxRetries with
  | (res, calls) => (res.getD input, calls)

/-- C4: for every Agent with `max_retries ≥ 1` and every input map, `decide`
invokes the wrapped node exactly once and returns that first invocation's
resulting state as the final result; the value of `max_retries` has no
effect on the number of invocations or the result. -/
theorem agent_decide_single_invocation (a : Agent) (input : Store)
    (hM : 1 ≤ a.maxRetries) :
    (a.decide input).1 = a.node input ∧ (a.decide input).2 = 1 ∧
      (∀ m, 1 ≤ m →
        Agent.decide ⟨a.node, m, a.waitMillis⟩ input = a.decide input) := by
  obtain ⟨node, M, W⟩ := a
  simp only at hM ⊢
  cases M with
  | zero => omega
  | succ M2 =>
    refine ⟨rfl, rfl, ?_⟩
    intro m hm
    cases m with
    | zero => omega
    | succ m2 => rfl

/-- C4 witness: a concrete agent with `max_retries = 5` performs exactly one
invocation, with the same outcome as at `max_retries = 3`. -/
theorem agent_decide_single_invocation_witness :
    1 ≤ (Agent.withRetry demoNodeA 5 9).maxRetries ∧
      ((Agent.withRetry demoNodeA 5 9).decide []).1 = demoNodeA [] ∧
      ((Agent.withRetry demoNodeA 5 9).decide []).2 = 1 ∧
      (∀ m, 1 ≤ m →
        Agent.decide ⟨demoNodeA, m, 9⟩ [] = (Agent.withRetry demoNodeA 5 9).decide []) :=
  ⟨by decide,
    agent_decide_single_invocation (Agent.withRetry demoNodeA 5 9) [] (by decide)⟩

/-
  `ParallelBatch` (src/core/batch.rs).  A node invocation is modelled with
  an observable completion time (`TimedNode`): `join_all` produces the
  results in input order whatever the completion times are, and resolves
  once the slowest invocation has completed.
-/

/-- A node together with the completion time of each invocation. -/
structure TimedNode where
  fn : Store → Store
  time : Store → Nat

/-- Model of `ParallelBatch`. -/
structure ParallelBatch where
  node : TimedNode

/-- `ParallelBatch::call` (`join_all` over the mapped futures): the output
vector in input order, and the resolution time of the joined future. -/
def ParallelBatch.call (pb : ParallelBatch) (inputs : List Store) :
    List Store × Nat :=
  (inputs.map pb.node.fn, (inputs.map pb.node.time).foldr max 0)

theorem le_foldr_max (l : List Nat) (x : Nat) : x ∈ l → x ≤ l.foldr max 0 := by
  induction l with
  | nil => intro h; simp at h
  | cons hd tl ih =>
    intro h
    rcases List.mem_cons.mp h with h1 | h2
    · simp [List.foldr_cons, h1, Nat.le_max_left]
    · exact le_trans (ih h2) (by simp [List.foldr_cons, Nat.le_max_right])

/-- C5: for every ParallelBatch over a node and every list of N input
states, `call` returns a list of length N whose i-th element is the node's
result for the i-th input — output order is input order by index, whatever
the completion times — and the joined future resolves no earlier than every
item's completion. -/
theorem parallelBatch_order (pb : ParallelBatch) (inputs : List Store) :
    (pb.call inputs).1.length = inputs.length ∧
      (∀ i (h : i < (pb.call inputs).1.length) (h2 : i < inputs.length),
        (pb.call inputs).1.get ⟨i, h⟩ = pb.node.fn (inputs.get ⟨i, h2⟩)) ∧
      (∀ i (h2 : i < inputs.length),
        pb.node.time (inputs.get ⟨i, h2⟩) ≤ (pb.call inputs).2) := by
  refine ⟨by simp [ParallelBatch.call], ?_, ?_⟩
  · intro i h h2
    simp [ParallelBatch.call]
  · intro i h2
    apply le_foldr_max
    exact List.mem_map_of_mem pb.node.time (inputs.get_mem i h2)

/-- C5 witness: a two-element batch whose second item completes first —
output stays aligned with the input indices and the join resolves at the
later completion time. -/
theorem parallelBatch_order_witness :
    ((ParallelBatch.mk ⟨fun st => ainsert st "n" (Value.num 1),
        fun st => (alookup st "t").elim 0 (fun _ => 8)⟩).call
          [[("t", Value.null)], []]).1.length = 2 ∧
      (0 < 2 ∧
        ((ParallelBatch.mk ⟨fun st => ainsert st "n" (Value.num 1),
            fun st => (alookup st "t").elim 0 (fun _ => 8)⟩).call
              [[("t", Value.null)], []]).1.get ⟨0, by decide⟩ =
          [("t", Value.null), ("n", Value.num 1)]) ∧
      (1 < 2 ∧
        (8 : Nat) ≤
          ((ParallelBatch.mk ⟨fun st => ainsert st "n" (Value.num 1),
              fun st => (alookup st "t").elim 0 (fun _ => 8)⟩).call
                [[("t", Value.null)], []]).2) := by
  have h := parallelBatch_order
    (ParallelBatch.mk ⟨fun st => ainsert st "n" (Value.num 1),
      fun st => (alookup st "t").elim 0 (fun _ => 8)⟩)
    [[("t", Value.null)], []]
  refine ⟨h.1, ⟨by decide, ?_⟩, ⟨by decide, ?_⟩⟩
  · rw [h.2.1 0 (by rw [h.1]; decide) (by decide)]
    rfl
  · exact h.2.2 0 (by decide)

/-
  `Workflow` (src/patterns/workflow.rs) and `BatchFlow`
  (src/patterns/batchflow.rs).  Both merge a parameter map into the store
  with `entry(k).or_insert(v)` before running the flow.
-/

theorem alookup_entryOrInsert_of_some {α : Type} (l : List (String × α))
    (k k2 : String) (w : α) (v : α) (h : alookup l k2 = some v) :
    alookup (entryOrInsert l k w) k2 = some v := by
  unfold entryOrInsert
  cases hk : (alookup l k).isSome with
  | true => simpa [hk] using h
  | false =>
    simp only [hk, Bool.false_eq_true, if_false]
    by_cases he : k = k2
    · subst he
      rw [h] at hk
      simp at hk
    · rw [alookup_ainsert_ne l k k2 w he]
      exact h

/-- Merging a parameter map into the store, one `entry(k).or_insert(v)` per
parameter. -/
def mergeParams (params : List (String × Value)) (st : Store) : Store :=
  params.foldl (fun acc kv => entryOrInsert acc kv.1 kv.2) st

theorem mergeParams_no_overwrite (params : List (String × Value)) (st : Store)
    (k : String) (v : Value) (h : alookup st k = some v) :
    alookup (mergeParams params st) k = some v := by
  induction params generalizing st with
  | nil => exact h
  | cons p ps ih =>
    exact ih _ (alookup_entryOrInsert_of_some st p.1 k p.2 v h)

/-- Model of `Workflow`: a flow plus a parameter map. -/
structure Workflow where
  flow : Flow
  params : List (String × Value)

/-- `Workflow::execute`: merge the params into the store, then run the
flow. -/
def Workflow.execute (wf : Workflow) (st : Store) (fuel : Nat) : Option Store :=
  wf.flow.run (mergeParams wf.params st) fuel

/-- Model of `BatchFlow`. -/
structure BatchFlow where
  workflow : Workflow

/-- `BatchFlow::run`: for each parameter set, merge it into the shared
store and run the workflow (as a Node, i.e. the bare flow) on it. -/
def BatchFlow.run (bf : BatchFlow) (st : Store)
    (batchParams : List (List (String × Value))) (fuel : Nat) : Option Store :=
  match batchParams with
  | [] => some st
  | p :: ps =>
    (bf.workflow.flow.run (mergeParams p st) fuel).bind
      (fun st2 => bf.run st2 ps fuel)

/-- C6: `Workflow::execute` merges the workflow's parameter map into the
input map before running the flow, and `BatchFlow::run` merges each
parameter set into the shared state before each workflow run; in both
cases the merge never overwrites a key already present: any key bound
before the merge keeps its value. -/
theorem merge_no_overwrite :
    (∀ (params : List (String × Value)) (st : Store) (k : String) (v : Value),
      alookup st k = some v → alookup (mergeParams params st) k = some v) ∧
      (∀ (wf : Workflow) (st : Store) (fuel : Nat),
        wf.execute st fuel = wf.flow.run (mergeParams wf.params st) fuel) ∧
      (∀ (bf : BatchFlow) (st : Store) (p : List (String × Value))
          (ps : List (List (String × Value))) (fuel : Nat),
        bf.run st (p :: ps) fuel =
          (bf.workflow.flow.run (mergeParams p st) fuel).bind
            (fun st2 => bf.run st2 ps fuel)) :=
  ⟨fun params st k v h => mergeParams_no_overwrite params st k v h,
    fun _ _ _ => rfl, fun _ _ _ _ _ => rfl⟩

/-- C6 witness: a parameter map that collides on key "x" does not overwrite
the pre-existing binding. -/
theorem merge_no_overwrite_witness :
    alookup [("x", Value.num 1)] "x" = some (Value.num 1) ∧
      alookup (mergeParams [("x", Value.num 2), ("y", Value.num 3)]
          [("x", Value.num 1)]) "x" = some (Value.num 1) :=
  ⟨rfl,
    merge_no_overwrite.1 [("x", Value.num 2), ("y", Value.num 3)]
      [("x", Value.num 1)] "x" (Value.num 1) rfl⟩

/-
  `StructuredOutput` (src/patterns/structured_output.rs).  `generate` is
  infallible in the current code (`Ok(raw)`); `call` still wraps it in an
  error handler that collapses a failure to a fresh empty store.
-/

/-- Model of `StructuredOutput`. -/
structure StructuredOutput where
  node : NodeFn

/-- `StructuredOutput::generate`: run the node; always `Ok`. -/
def StructuredOutput.generate (so : StructuredOutput) (prompt : Store) :
    Except String Store :=
  Except.ok (so.node prompt)

/-- The `unwrap_or_else` handler of `StructuredOutput::call`: an error is
trapped into a fresh empty map. -/
def trapToEmpty : Except String Store → Store
  | Except.ok st => st
  | Except.error _ => []

/-- `StructuredOutput::call`. -/
def StructuredOutput.call (so : StructuredOutput) (input : Store) : Store :=
  trapToEmpty (so.generate input)

/-- C8: `StructuredOutput::call` executes the wrapped node and returns the
node's resulting state; the generate step is routed through a handler that
traps any internal failure into an empty key/value map instead of
propagating an error to the caller. -/
theorem structuredOutput_trap (so : StructuredOutput) (input : Store)
    (e : String) :
    so.call input = so.node input ∧
      so.call input = trapToEmpty (so.generate input) ∧
      trapToEmpty (Except.error e) = [] :=
  ⟨rfl, rfl, rfl⟩

end AgentFlow
